import Mathlib

/-!
Shallow embedding of the conflict-detection engine of the `cassandra`
VS Code extension: the dual-format `git merge-tree` output parser
(`src/mergeTreeParser.ts`), the conflict-state differ
(`src/conflictState.ts`), and the polling orchestrator
(`src/conflictDetector.ts`), together with theorems settling the
specification claims about them.

Strings are modelled as lists of characters (`Str`); JavaScript string
operations (`split('\n')`, `trim()`, regexes) are embedded as executable
functions over `Str` mirroring the exact ECMAScript semantics the source
relies on.
-/

namespace Cassandra

/-- JavaScript strings, modelled as lists of characters. -/
abbrev Str := List Char

/-- The characters matched by the ECMAScript `\s` character class
(whitespace, including the unicode space separators and BOM). -/
def isJsWhitespace (c : Char) : Bool :=
  c = ' ' || c = '\t' || c = '\n' || c = '\x0b' || c = '\x0c' || c = '\r' ||
  c = ' ' || c = ' ' ||
  (decide (0x2000 ≤ c.toNat) && decide (c.toNat ≤ 0x200A)) ||
  c = ' ' || c = ' ' || c = ' ' || c = ' ' ||
  c = '　' || c = '﻿'

/-- The characters matched by the ECMAScript `.` (dot) without the `s`
flag: everything except the four line terminators. -/
def isDotChar (c : Char) : Bool :=
  !(c = '\n' || c = '\r' || c = ' ' || c = ' ')

/-- The characters matched by the ECMAScript `\d` class. -/
def isDigitCh (c : Char) : Bool :=
  decide ('0' ≤ c) && decide (c ≤ '9')

/-- The characters matched by the character class `[0-9a-f]`. -/
def isLowerHex (c : Char) : Bool :=
  isDigitCh c || (decide ('a' ≤ c) && decide (c ≤ 'f'))

/-- JavaScript `String.prototype.trim()`: strips `\s` characters from
both ends. -/
def jsTrim (s : Str) : Str :=
  ((s.dropWhile isJsWhitespace).reverse.dropWhile isJsWhitespace).reverse

/-- JavaScript `stdout.split('\n')`: split at every newline, keeping
empty segments; the result is always non-empty. -/
def splitLines : Str → List Str
  | [] => [[]]
  | c :: cs =>
    match splitLines cs with
    | [] => [[c]]
    | l :: ls => if c = '\n' then [] :: l :: ls else (c :: l) :: ls

/-- Joins lines with `'\n'`; left inverse of `splitLines` on
newline-free lines. -/
def joinLines : List Str → Str
  | [] => []
  | [l] => l
  | l :: l' :: ls => l ++ '\n' :: joinLines (l' :: ls)

theorem splitLines_ne_nil (s : Str) : splitLines s ≠ [] := by
  cases s with
  | nil => simp [splitLines]
  | cons c cs =>
    simp only [splitLines]
    cases splitLines cs with
    | nil => simp
    | cons l ls =>
      by_cases hc : c = '\n' <;> simp [hc]

theorem splitLines_cons (c : Char) (cs : Str) :
    splitLines (c :: cs) =
      if c = '\n' then [] :: splitLines cs
      else (splitLines cs).modifyHead (c :: ·) := by
  cases h : splitLines cs with
  | nil => exact absurd h (splitLines_ne_nil cs)
  | cons l ls =>
    simp only [splitLines, h]
    split <;> simp

theorem splitLines_no_newline (l : Str) (h : '\n' ∉ l) :
    splitLines l = [l] := by
  induction l with
  | nil => rfl
  | cons c cs ih =>
    simp only [List.mem_cons, not_or] at h
    rw [splitLines_cons, if_neg (Ne.symm h.1), ih h.2]
    rfl

theorem splitLines_append (l : Str) (s : Str) (h : '\n' ∉ l) :
    splitLines (l ++ '\n' :: s) = l :: splitLines s := by
  induction l with
  | nil =>
    rw [List.nil_append, splitLines_cons, if_pos rfl]
  | cons c cs ih =>
    simp only [List.mem_cons, not_or] at h
    rw [List.cons_append, splitLines_cons, if_neg (Ne.symm h.1), ih h.2]
    rfl

theorem splitLines_joinLines (ls : List Str) (hne : ls ≠ [])
    (h : ∀ l ∈ ls, '\n' ∉ l) : splitLines (joinLines ls) = ls := by
  induction ls with
  | nil => exact absurd rfl hne
  | cons l rest ih =>
    cases rest with
    | nil =>
      simpa [joinLines] using splitLines_no_newline l (h l (by simp))
    | cons l' rest' =>
      have h1 : '\n' ∉ l := h l (by simp)
      have h2 : ∀ x ∈ l' :: rest', '\n' ∉ x := by
        intro x hx; exact h x (by simp [hx])
      simp only [joinLines, splitLines_append l _ h1]
      rw [ih (by simp) h2]

/-! ## Regex matchers

The three regular expressions of `src/mergeTreeParser.ts`, embedded as
executable matchers with ECMAScript greedy/backtracking semantics. -/

/-- Consumes exactly `n` characters satisfying `p`, returning them and
the remainder. -/
def takeClass (p : Char → Bool) : Nat → Str → Option (Str × Str)
  | 0, s => some ([], s)
  | _ + 1, [] => none
  | n + 1, c :: cs =>
    if p c then (takeClass p n cs).map (fun t => (c :: t.1, t.2)) else none

/-- Consumes one character satisfying `p`. -/
def takeOne (p : Char → Bool) : Str → Option (Char × Str)
  | [] => none
  | c :: cs => if p c then some (c, cs) else none

/-- Capture groups of `MODERN_STAGE_RE =
`^(\d\x7b6\x7d)\s([0-9a-f]\x7b40\x7d)\s(\d)\t(.+)$`. -/
structure ModernStageMatch where
  mode : Str
  oid : Str
  stage : Char
  filepath : Str
deriving DecidableEq, Repr

/-- `MODERN_STAGE_RE.exec(line)`: mode, 40-hex oid, a single stage
digit, a tab, then a non-empty filepath of dot-matchable characters. -/
def modernStageMatch (line : Str) : Option ModernStageMatch := do
  let (mode, r1) ← takeClass isDigitCh 6 line
  let (_, r2) ← takeOne isJsWhitespace r1
  let (oid, r3) ← takeClass isLowerHex 40 r2
  let (_, r4) ← takeOne isJsWhitespace r3
  let (stage, r5) ← takeOne isDigitCh r4
  match r5 with
  | '\t' :: rest =>
    if rest ≠ [] ∧ rest.all isDotChar then
      some ⟨mode, oid, stage, rest⟩
    else none
  | _ => none

/-- `LEGACY_BLOCK_RE.test(line)`: the line starts with one of the three
block headers (the regex is anchored only at the start). -/
def isLegacyBlockHeader (line : Str) : Bool :=
  List.isPrefixOf "changed in both".toList line ||
  List.isPrefixOf "added in both".toList line ||
  List.isPrefixOf "removed in both".toList line

/-- `\s+` immediately followed by a class disjoint from `\s`: consumes
the maximal non-empty whitespace run (greediness is deterministic
here). -/
def takeWs1 : Str → Option Str
  | [] => none
  | c :: cs =>
    if isJsWhitespace c then some (cs.dropWhile isJsWhitespace) else none

/-- Backtracking search for the tail pattern `\s+(.+)$`: the engine
first gives `\s+` the maximal whitespace run of length `w`, then
shrinks it down to 1 until the rest is a non-empty run of
dot-matchable characters; returns the `(.+)` capture. -/
def wsDotSplitAux (s : Str) : Nat → Option Str
  | 0 => none
  | k + 1 =>
    let suffix := s.drop (k + 1)
    if suffix ≠ [] ∧ suffix.all isDotChar then some suffix
    else wsDotSplitAux s k

/-- Matches `\s+(.+)$` against `s`, returning the `(.+)` capture. -/
def wsDotSplit (s : Str) : Option Str :=
  wsDotSplitAux s (s.takeWhile isJsWhitespace).length

/-- Capture groups of `LEGACY_CONTENT_RE =
`^\s+(base|our|their)\s+(\d\x7b6\x7d)\s+([0-9a-f]\x7b40\x7d)\s+(.+)$`. -/
structure LegacyContentMatch where
  side : Str
  mode : Str
  oid : Str
  filepath : Str
deriving DecidableEq, Repr

/-- `LEGACY_CONTENT_RE.exec(line)`. The alternatives `base|our|their`
start with distinct letters, so at most one can apply; every `\s+`
except the last borders a disjoint class and is deterministic. -/
def legacyContentMatch (line : Str) : Option LegacyContentMatch := do
  let r1 ← takeWs1 line
  let (side, r2) ←
    if List.isPrefixOf "base".toList r1 then some ("base".toList, r1.drop 4)
    else if List.isPrefixOf "our".toList r1 then some ("our".toList, r1.drop 3)
    else if List.isPrefixOf "their".toList r1 then some ("their".toList, r1.drop 5)
    else none
  let r3 ← takeWs1 r2
  let (mode, r4) ← takeClass isDigitCh 6 r3
  let r5 ← takeWs1 r4
  let (oid, r6) ← takeClass isLowerHex 40 r5
  let filepath ← wsDotSplit r6
  some ⟨side, mode, oid, filepath⟩

/-! ## Parser data model (`src/mergeTreeParser.ts`) -/

/-- One file that would conflict, with the object id of each stage. -/
structure ConflictFileEntry where
  filepath : Str
  baseOid : Str
  oursOid : Str
  theirsOid : Str
deriving DecidableEq, Repr

/-- Structured result of either merge-tree parser. -/
structure MergeTreeResult where
  hasConflicts : Bool
  toplevelTreeOid : Str
  conflictFiles : List ConflictFileEntry
  messages : List Str
deriving DecidableEq, Repr

/-- `const EMPTY_OID = '0'.repeat(40)`. -/
def EMPTY_OID : Str := List.replicate 40 '0'

/-- The per-filepath accumulator record both parsers build. -/
structure StageOids where
  baseOid : Str
  oursOid : Str
  theirsOid : Str
deriving DecidableEq, Repr

/-- A fresh accumulator entry: every side starts at the sentinel. -/
def emptyStageOids : StageOids := ⟨EMPTY_OID, EMPTY_OID, EMPTY_OID⟩

/-- Insertion-ordered `Map<string, {...}>`, as an association list. -/
abbrev StageMap := List (Str × StageOids)

/-- `map.get(key)`. -/
def alookup (key : Str) : StageMap → Option StageOids
  | [] => none
  | (k, o) :: m => if k = key then some o else alookup key m

/-- Mutating the record held under `key` in place (first occurrence). -/
def aupdate (key : Str) (f : StageOids → StageOids) : StageMap → StageMap
  | [] => []
  | (k, o) :: m =>
    if k = key then (k, f o) :: m else (k, o) :: aupdate key f m

/-- The `get`-or-insert-then-mutate idiom both parser loops use: a
missing key is appended (JS `Map` iterates in insertion order) with a
fresh record, and the record is then updated through `f`. -/
def mapUpsert (m : StageMap) (key : Str) (f : StageOids → StageOids) :
    StageMap :=
  match alookup key m with
  | none => m ++ [(key, f emptyStageOids)]
  | some _ => aupdate key f m

/-- The `switch (stage)` of the modern parser: stages `'1'`/`'2'`/`'3'`
set base/ours/theirs; any other digit falls through and sets nothing. -/
def setStage (o : StageOids) (stage : Char) (oid : Str) : StageOids :=
  if stage = '1' then { o with baseOid := oid }
  else if stage = '2' then { o with oursOid := oid }
  else if stage = '3' then { o with theirsOid := oid }
  else o

/-- Loop state of `parseModernMergeTree`'s line scan. -/
structure ModernLoopState where
  stageMap : StageMap
  messages : List Str
  inMessages : Bool
deriving DecidableEq, Repr

/-- One iteration of the modern parser's `for` loop (lines 87–131 of
`mergeTreeParser.ts`). -/
def modernStep (st : ModernLoopState) (line : Str) : ModernLoopState :=
  if st.inMessages then
    if 0 < line.length then { st with messages := st.messages ++ [line] }
    else st
  else if line = [] then
    { st with inMessages := true }
  else
    match modernStageMatch line with
    | none => { st with messages := st.messages ++ [line] }
    | some m =>
      { st with
        stageMap :=
          mapUpsert st.stageMap m.filepath (fun o => setStage o m.stage m.oid) }

/-- `parseModernMergeTree(stdout, exitCode)` (lines 63–144). -/
def parseModernMergeTree (stdout : Str) (exitCode : Int) : MergeTreeResult :=
  let lines := splitLines stdout
  let toplevelTreeOid := jsTrim (lines.headD [])
  if exitCode = 0 then
    { hasConflicts := false, toplevelTreeOid, conflictFiles := [],
      messages := [] }
  else
    let final := (lines.drop 1).foldl modernStep ⟨[], [], false⟩
    let conflictFiles := final.stageMap.map fun e =>
      ConflictFileEntry.mk e.1 e.2.baseOid e.2.oursOid e.2.theirsOid
    { hasConflicts := decide (0 < conflictFiles.length), toplevelTreeOid,
      conflictFiles, messages := final.messages }

/-- The `switch (side)` of the legacy parser. -/
def setSide (o : StageOids) (side : Str) (oid : Str) : StageOids :=
  if side = "base".toList then { o with baseOid := oid }
  else if side = "our".toList then { o with oursOid := oid }
  else if side = "their".toList then { o with theirsOid := oid }
  else o

/-- Loop state of `parseLegacyMergeTree`'s line scan. -/
structure LegacyLoopState where
  fileMap : StageMap
  insideBlock : Bool
deriving DecidableEq, Repr

/-- `/^\s/.test(line)`: the first character is whitespace. -/
def startsWithWs : Str → Bool
  | [] => false
  | c :: _ => isJsWhitespace c

/-- One iteration of the legacy parser's `for` loop (lines 169–216). -/
def legacyStep (st : LegacyLoopState) (line : Str) : LegacyLoopState :=
  if isLegacyBlockHeader line then { st with insideBlock := true }
  else if !st.insideBlock then st
  else if line = [] || (decide (0 < line.length) && !startsWithWs line) then
    { st with insideBlock := isLegacyBlockHeader line }
  else
    match legacyContentMatch line with
    | none => st
    | some m =>
      { st with
        fileMap :=
          mapUpsert st.fileMap m.filepath (fun o => setSide o m.side m.oid) }

/-- The legacy parser, factored over an explicit line list. -/
def parseLegacyLines (lines : List Str) : MergeTreeResult :=
  let final := lines.foldl legacyStep ⟨[], false⟩
  let conflictFiles := final.fileMap.map fun e =>
    ConflictFileEntry.mk e.1 e.2.baseOid e.2.oursOid e.2.theirsOid
  { hasConflicts := decide (0 < conflictFiles.length), toplevelTreeOid := [],
    conflictFiles, messages := [] }

/-- `parseLegacyMergeTree(stdout)` (lines 160–229). -/
def parseLegacyMergeTree (stdout : Str) : MergeTreeResult :=
  parseLegacyLines (splitLines stdout)

/-! ## Abstract stage lines and their rendering

To quantify over "modern-format input whose stage section contains
stage-entry lines", stage lines are described abstractly and rendered
to text; the parser is then run on the rendered text. -/

/-- An abstract stage-entry line of the modern format. -/
structure StageLine where
  mode : Str
  oid : Str
  stage : Char
  path : Str
deriving DecidableEq, Repr

/-- Renders a stage line as `<mode> <oid> <stage><TAB><filepath>`. -/
def renderStageLine (e : StageLine) : Str :=
  e.mode ++ ' ' :: (e.oid ++ ' ' :: e.stage :: '\t' :: e.path)

/-- Well-formedness of a stage line per the spec's stage-entry shape:
six-digit mode, 40 lowercase-hex oid, stage digit 1–3, non-empty
filepath free of line terminators. -/
def WFStageLine (e : StageLine) : Prop :=
  e.mode.length = 6 ∧ e.mode.all isDigitCh = true ∧
  e.oid.length = 40 ∧ e.oid.all isLowerHex = true ∧
  e.stage ∈ (['1', '2', '3'] : List Char) ∧
  e.path ≠ [] ∧ e.path.all isDotChar = true

instance (e : StageLine) : Decidable (WFStageLine e) := by
  unfold WFStageLine; infer_instance

theorem takeClass_exact (p : Char → Bool) (xs rest : Str)
    (h : xs.all p = true) :
    takeClass p xs.length (xs ++ rest) = some (xs, rest) := by
  induction xs with
  | nil => rfl
  | cons c cs ih =>
    simp only [List.all_cons, Bool.and_eq_true] at h
    simp [takeClass, h.1, ih h.2]

theorem stage_digit {c : Char} (h : c ∈ (['1', '2', '3'] : List Char)) :
    isDigitCh c = true := by
  simp only [List.mem_cons, List.not_mem_nil, or_false] at h
  rcases h with rfl | rfl | rfl <;> decide

/-- A rendered well-formed stage line matches `MODERN_STAGE_RE` with
exactly its own components as capture groups. -/
theorem modernStageMatch_render (e : StageLine) (h : WFStageLine e) :
    modernStageMatch (renderStageLine e) =
      some ⟨e.mode, e.oid, e.stage, e.path⟩ := by
  obtain ⟨hm6, hmd, ho40, hoh, hst, hpne, hpd⟩ := h
  unfold modernStageMatch renderStageLine
  rw [show (6 : Nat) = e.mode.length from hm6.symm, takeClass_exact _ _ _ hmd]
  simp only [Option.bind_eq_bind, Option.some_bind, takeOne, isJsWhitespace]
  norm_num
  rw [show (40 : Nat) = e.oid.length from ho40.symm, takeClass_exact _ _ _ hoh]
  have hdot : ∀ x ∈ e.path, isDotChar x = true := List.all_eq_true.mp hpd
  simp [takeOne, stage_digit hst, hpne]
  exact hdot

theorem renderStageLine_ne_nil (e : StageLine) (h : WFStageLine e) :
    renderStageLine e ≠ [] := by
  obtain ⟨hm6, -, -, -, -, -, -⟩ := h
  unfold renderStageLine
  intro hcontra
  have := congrArg List.length hcontra
  simp [hm6] at this

theorem notin_of_all {p : Char → Bool} {c : Char} {l : Str}
    (h : l.all p = true) (hp : p c = false) : c ∉ l := fun hc =>
  absurd (List.all_eq_true.mp h _ hc) (by simp [hp])

theorem newline_notin_render (e : StageLine) (h : WFStageLine e) :
    '\n' ∉ renderStageLine e := by
  obtain ⟨-, hmd, -, hoh, hst, -, hpd⟩ := h
  unfold renderStageLine
  intro hc
  simp only [List.mem_append, List.mem_cons] at hc
  rcases hc with hc | hc | hc | hc | hc | hc | hc
  · exact absurd hc (notin_of_all hmd (by decide))
  · exact absurd hc (by decide)
  · exact absurd hc (notin_of_all hoh (by decide))
  · exact absurd hc (by decide)
  · have := stage_digit hst
    rw [← hc] at this
    exact absurd this (by decide)
  · exact absurd hc (by decide)
  · exact absurd hc (notin_of_all hpd (by decide))

/-- The distinct elements of a list, in first-appearance order — the
iteration order of a JS `Map` keyed by those elements. -/
def firstAppearance : List Str → List Str
  | [] => []
  | p :: ps => p :: firstAppearance (ps.filter (· ≠ p))
termination_by l => l.length
decreasing_by
  simp only [List.length_cons]
  exact Nat.lt_succ_of_le (List.length_filter_le _ _)

theorem mem_firstAppearance (a : Str) (l : List Str) :
    a ∈ firstAppearance l ↔ a ∈ l := by
  induction l using firstAppearance.induct with
  | case1 => simp [firstAppearance]
  | case2 p ps ih =>
    rw [firstAppearance]
    simp only [List.mem_cons, ih, List.mem_filter, decide_eq_true_eq]
    constructor
    · rintro (rfl | ⟨h, -⟩)
      · exact Or.inl rfl
      · exact Or.inr h
    · rintro (rfl | h)
      · exact Or.inl rfl
      · by_cases hap : a = p
        · exact Or.inl hap
        · exact Or.inr ⟨h, hap⟩

theorem nodup_firstAppearance (l : List Str) : (firstAppearance l).Nodup := by
  induction l using firstAppearance.induct with
  | case1 => simp [firstAppearance]
  | case2 p ps ih =>
    rw [firstAppearance]
    refine List.Nodup.cons (fun hc => ?_) ih
    rw [mem_firstAppearance] at hc
    simp [List.mem_filter] at hc

theorem firstAppearance_append (l : List Str) (x : Str) :
    firstAppearance (l ++ [x]) =
      if x ∈ l then firstAppearance l else firstAppearance l ++ [x] := by
  induction l using firstAppearance.induct with
  | case1 => simp [firstAppearance]
  | case2 p ps ih =>
    have hL : firstAppearance ((p :: ps) ++ [x]) =
        p :: firstAppearance ((ps ++ [x]).filter (· ≠ p)) := by
      rw [List.cons_append, firstAppearance]
    rw [hL, List.filter_append, List.filter_singleton]
    by_cases hxp : x = p
    · have hd : decide (x ≠ p) = false := by simp [hxp]
      rw [hd, cond_false, List.append_nil, if_pos (by simp [hxp])]
      conv_rhs => rw [firstAppearance]
    · have hd : decide (x ≠ p) = true := by simp [hxp]
      rw [hd, cond_true, ih]
      have hmem : x ∈ ps.filter (· ≠ p) ↔ x ∈ ps := by
        simp [List.mem_filter, hxp]
      by_cases hx : x ∈ ps
      · rw [if_pos (hmem.mpr hx), if_pos (by simp [hx])]
        conv_rhs => rw [firstAppearance]
      · rw [if_neg (fun hc => hx (hmem.mp hc)), if_neg (by simp [hx, hxp])]
        conv_rhs => rw [firstAppearance]
        rw [List.cons_append]

/-- The oid carried by the last stage-`stage` line for `p`, or the
sentinel when no such line exists (repeated stage lines overwrite). -/
def lastOid (stage : Char) (p : Str) (es : List StageLine) : Str :=
  es.foldl
    (fun acc e => if e.path = p ∧ e.stage = stage then e.oid else acc)
    EMPTY_OID

/-- The accumulated stage record of filepath `p` over the lines `es`. -/
def oidsFor (p : Str) (es : List StageLine) : StageOids :=
  ⟨lastOid '1' p es, lastOid '2' p es, lastOid '3' p es⟩

/-- The effect of one abstract stage line on the stage map: exactly the
loop body of the modern parser on the matching rendered line. -/
def stageStep (m : StageMap) (e : StageLine) : StageMap :=
  mapUpsert m e.path (fun o => setStage o e.stage e.oid)

theorem lastOid_append (stage : Char) (p : Str) (es : List StageLine)
    (e : StageLine) :
    lastOid stage p (es ++ [e]) =
      if e.path = p ∧ e.stage = stage then e.oid else lastOid stage p es := by
  simp [lastOid, List.foldl_append]

theorem lastOid_notmem (stage : Char) (p : Str) (es : List StageLine)
    (h : p ∉ es.map (·.path)) : lastOid stage p es = EMPTY_OID := by
  induction es using List.reverseRecOn with
  | nil => rfl
  | append_singleton es e ih =>
    simp only [List.map_append, List.map_cons, List.map_nil,
      List.mem_append, List.mem_singleton, not_or] at h
    rw [lastOid_append, if_neg (fun hc => h.2 hc.1.symm), ih h.1]

theorem oidsFor_append_self (es : List StageLine) (e : StageLine)
    (hst : e.stage ∈ (['1', '2', '3'] : List Char)) :
    oidsFor e.path (es ++ [e]) =
      setStage (oidsFor e.path es) e.stage e.oid := by
  simp only [List.mem_cons, List.not_mem_nil, or_false] at hst
  unfold oidsFor setStage
  rcases hst with h1 | h2 | h3
  · rw [if_pos h1]
    simp [lastOid_append, h1]
  · rw [if_neg (by rw [h2]; decide), if_pos h2]
    simp [lastOid_append, h2]
  · rw [if_neg (by rw [h3]; decide), if_neg (by rw [h3]; decide), if_pos h3]
    simp [lastOid_append, h3]

theorem oidsFor_append_other (es : List StageLine) (e : StageLine)
    (p : Str) (h : e.path ≠ p) :
    oidsFor p (es ++ [e]) = oidsFor p es := by
  unfold oidsFor
  rw [lastOid_append, lastOid_append, lastOid_append]
  simp [h]

theorem alookup_map (p : Str) (l : List Str) (g : Str → StageOids) :
    alookup p (l.map fun q => (q, g q)) =
      if p ∈ l then some (g p) else none := by
  induction l with
  | nil => simp [alookup]
  | cons q qs ih =>
    simp only [List.map_cons, alookup]
    by_cases hqp : q = p
    · subst hqp; simp
    · rw [if_neg hqp, ih]
      by_cases hp : p ∈ qs
      · simp [hp]
      · simp [hp, Ne.symm hqp]

theorem aupdate_map (p : Str) (l : List Str) (g : Str → StageOids)
    (f : StageOids → StageOids) (hnd : l.Nodup) :
    aupdate p f (l.map fun q => (q, g q)) =
      l.map fun q => (q, if q = p then f (g q) else g q) := by
  induction l with
  | nil => rfl
  | cons q qs ih =>
    simp only [List.nodup_cons] at hnd
    simp only [List.map_cons, aupdate]
    by_cases hqp : q = p
    · subst hqp
      rw [if_pos rfl, if_pos rfl]
      congr 1
      refine (List.map_congr_left fun a ha => ?_).symm
      have hap : ¬ a = q := fun hc => hnd.1 (by rwa [hc] at ha)
      rw [if_neg hap]
    · rw [if_neg hqp, if_neg hqp, ih hnd.2]

theorem mapUpsert_map (p : Str) (l : List Str) (g : Str → StageOids)
    (f : StageOids → StageOids) (hnd : l.Nodup) :
    mapUpsert (l.map fun q => (q, g q)) p f =
      if p ∈ l then l.map fun q => (q, if q = p then f (g q) else g q)
      else (l.map fun q => (q, g q)) ++ [(p, f emptyStageOids)] := by
  unfold mapUpsert
  by_cases hp : p ∈ l
  · have h := alookup_map p l g
    rw [if_pos hp] at h
    rw [h, if_pos hp]
    exact aupdate_map p l g f hnd
  · have h := alookup_map p l g
    rw [if_neg hp] at h
    rw [h, if_neg hp]

/-- The stage map built by folding abstract stage lines equals the
first-appearance-ordered association of each distinct path with its
accumulated stage record. -/
theorem stageFold_eq (es : List StageLine)
    (hwf : ∀ e ∈ es, e.stage ∈ (['1', '2', '3'] : List Char)) :
    es.foldl stageStep [] =
      (firstAppearance (es.map (·.path))).map fun p => (p, oidsFor p es) := by
  induction es using List.reverseRecOn with
  | nil => simp [firstAppearance]
  | append_singleton es e ih =>
    have hwf' : ∀ x ∈ es, x.stage ∈ (['1', '2', '3'] : List Char) :=
      fun x hx => hwf x (by simp [hx])
    have hste : e.stage ∈ (['1', '2', '3'] : List Char) :=
      hwf e (by simp)
    rw [List.foldl_append, List.foldl_cons, List.foldl_nil, ih hwf',
      List.map_append, List.map_cons, List.map_nil, firstAppearance_append]
    show mapUpsert _ e.path _ = _
    rw [mapUpsert_map _ _ _ _ (nodup_firstAppearance _)]
    by_cases hmem : e.path ∈ es.map (·.path)
    · rw [if_pos ((mem_firstAppearance _ _).mpr hmem), if_pos hmem]
      refine List.map_congr_left fun q hq => ?_
      by_cases hqe : q = e.path
      · subst hqe
        rw [if_pos rfl, oidsFor_append_self es e hste]
      · rw [if_neg hqe, oidsFor_append_other es e q (fun hc => hqe hc.symm)]
    · rw [if_neg (fun hc => hmem ((mem_firstAppearance _ _).mp hc)),
        if_neg hmem, List.map_append, List.map_cons, List.map_nil]
      congr 1
      · refine List.map_congr_left fun q hq => ?_
        have hne : e.path ≠ q := by
          rw [mem_firstAppearance] at hq
          exact fun hc => hmem (hc ▸ hq)
        rw [oidsFor_append_other es e q hne]
      · have hval : oidsFor e.path (es ++ [e]) =
            setStage emptyStageOids e.stage e.oid := by
          rw [oidsFor_append_self es e hste]
          have hempty : oidsFor e.path es = emptyStageOids := by
            unfold oidsFor
            rw [lastOid_notmem _ _ _ hmem, lastOid_notmem _ _ _ hmem,
              lastOid_notmem _ _ _ hmem]
            rfl
          rw [hempty]
        rw [← hval]

theorem modernStep_render (st : ModernLoopState) (e : StageLine)
    (hwf : WFStageLine e) (hmsg : st.inMessages = false) :
    modernStep st (renderStageLine e) =
      { st with stageMap := stageStep st.stageMap e } := by
  unfold modernStep
  rw [if_neg (by rw [hmsg]; exact Bool.false_ne_true),
    if_neg (renderStageLine_ne_nil e hwf), modernStageMatch_render e hwf]
  rfl

theorem foldl_modernStep_stage (es : List StageLine)
    (hwf : ∀ e ∈ es, WFStageLine e) (m : StageMap) (msgs : List Str) :
    (es.map renderStageLine).foldl modernStep ⟨m, msgs, false⟩ =
      ⟨es.foldl stageStep m, msgs, false⟩ := by
  induction es generalizing m with
  | nil => rfl
  | cons e rest ih =>
    simp only [List.map_cons, List.foldl_cons]
    rw [modernStep_render _ e (hwf e (by simp)) rfl]
    exact ih (fun x hx => hwf x (by simp [hx])) _

theorem foldl_modernStep_messages (ls : List Str) (m : StageMap)
    (msgs : List Str) :
    ls.foldl modernStep ⟨m, msgs, true⟩ =
      ⟨m, msgs ++ ls.filter (fun l => decide (0 < l.length)), true⟩ := by
  induction ls generalizing msgs with
  | nil => simp
  | cons l rest ih =>
    simp only [List.foldl_cons, List.filter_cons]
    by_cases hl : 0 < l.length
    · rw [show modernStep ⟨m, msgs, true⟩ l = ⟨m, msgs ++ [l], true⟩ from by
        unfold modernStep; simp [hl], ih]
      simp [hl]
    · rw [show modernStep ⟨m, msgs, true⟩ l = ⟨m, msgs, true⟩ from by
        unfold modernStep; simp [hl], ih]
      simp [hl]

/-- A complete modern-format conflict output: top-level tree line, the
stage section, a blank separator, and the informational tail. -/
def renderModernOutput (top : Str) (entries : List StageLine)
    (msgs : List Str) : Str :=
  joinLines (top :: (entries.map renderStageLine ++ [] :: msgs))

/-- Full characterization of the modern parser on any well-formed
rendered conflict output with a non-zero exit code. -/
theorem parseModern_render (top : Str) (entries : List StageLine)
    (msgs : List Str) (htop : '\n' ∉ top)
    (hwf : ∀ e ∈ entries, WFStageLine e)
    (hmsgs : ∀ l ∈ msgs, '\n' ∉ l) (ec : Int) (hec : ec ≠ 0) :
    parseModernMergeTree (renderModernOutput top entries msgs) ec =
      { hasConflicts :=
          decide (0 < (firstAppearance (entries.map (·.path))).length),
        toplevelTreeOid := jsTrim top,
        conflictFiles := (firstAppearance (entries.map (·.path))).map
          fun p => ⟨p, lastOid '1' p entries, lastOid '2' p entries,
            lastOid '3' p entries⟩,
        messages := msgs.filter fun l => decide (0 < l.length) } := by
  have hnl : ∀ l ∈ top :: (entries.map renderStageLine ++ [] :: msgs),
      '\n' ∉ l := by
    intro l hl
    rcases List.mem_cons.mp hl with rfl | hl
    · exact htop
    rcases List.mem_append.mp hl with hl | hl
    · obtain ⟨e, he, rfl⟩ := List.mem_map.mp hl
      exact newline_notin_render e (hwf e he)
    rcases List.mem_cons.mp hl with rfl | hl
    · simp
    · exact hmsgs l hl
  unfold parseModernMergeTree renderModernOutput
  rw [splitLines_joinLines _ (by simp) hnl, if_neg hec]
  simp only [List.headD_cons, List.drop_succ_cons, List.drop_zero,
    List.foldl_append, List.foldl_cons]
  rw [foldl_modernStep_stage entries hwf [] []]
  rw [show modernStep ⟨entries.foldl stageStep [], [], false⟩ [] =
      ⟨entries.foldl stageStep [], [], true⟩ from by
    unfold modernStep; simp]
  rw [foldl_modernStep_messages,
    stageFold_eq entries (fun e he => (hwf e he).2.2.2.2.1)]
  simp [List.map_map, Function.comp, oidsFor]

/-! ## Conflict-state differ (`src/conflictState.ts`) -/

/-- Lexicographic order on strings by code unit, the order used by the
argument-less JS `Array.prototype.sort()` on these paths. -/
def strLe : Str → Str → Bool
  | [], _ => true
  | _ :: _, [] => false
  | a :: as, b :: bs => if a = b then strLe as bs else decide (a < b)

/-- `strLe` as a relation, for the sortedness lemmas. -/
def StrLeRel (a b : Str) : Prop := strLe a b = true

theorem strLe_total (a b : Str) : strLe a b = true ∨ strLe b a = true := by
  induction a generalizing b with
  | nil => left; rfl
  | cons x xs ih =>
    cases b with
    | nil => right; rfl
    | cons y ys =>
      by_cases hxy : x = y
      · subst hxy
        simp only [strLe, if_pos rfl]
        exact ih ys
      · rcases lt_trichotomy x y with h | h | h
        · left; simp [strLe, hxy, h]
        · exact absurd h hxy
        · right; simp [strLe, Ne.symm hxy, h]

theorem strLe_antisymm {a b : Str} (h1 : strLe a b = true)
    (h2 : strLe b a = true) : a = b := by
  induction a generalizing b with
  | nil =>
    cases b with
    | nil => rfl
    | cons y ys => simp [strLe] at h2
  | cons x xs ih =>
    cases b with
    | nil => simp [strLe] at h1
    | cons y ys =>
      by_cases hxy : x = y
      · subst hxy
        simp only [strLe, if_pos rfl] at h1 h2
        rw [ih h1 h2]
      · simp only [strLe, if_neg hxy, decide_eq_true_eq] at h1
        simp only [strLe, if_neg (Ne.symm hxy), decide_eq_true_eq] at h2
        exact absurd (lt_trans h1 h2) (lt_irrefl x)

theorem strLe_trans {a b c : Str} (h1 : strLe a b = true)
    (h2 : strLe b c = true) : strLe a c = true := by
  induction a generalizing b c with
  | nil => rfl
  | cons x xs ih =>
    cases b with
    | nil => simp [strLe] at h1
    | cons y ys =>
      cases c with
      | nil => simp [strLe] at h2
      | cons z zs =>
        by_cases hxy : x = y <;> by_cases hyz : y = z
        · subst hxy; subst hyz
          simp only [strLe, if_pos rfl] at h1 h2 ⊢
          exact ih h1 h2
        · subst hxy
          simp only [strLe, if_pos rfl] at h1
          simpa [strLe, hyz] using h2
        · subst hyz
          simpa [strLe, hxy] using h1
        · simp only [strLe, if_neg hxy, decide_eq_true_eq] at h1
          simp only [strLe, if_neg hyz, decide_eq_true_eq] at h2
          have hxz := lt_trans h1 h2
          simp [strLe, ne_of_lt hxz, hxz]

instance : IsAntisymm Str StrLeRel := ⟨fun _ _ => strLe_antisymm⟩

/-- One insertion step of the sort. -/
def insertSorted (x : Str) : List Str → List Str
  | [] => [x]
  | y :: ys => if strLe x y then x :: y :: ys else y :: insertSorted x ys

/-- A deterministic comparison sort standing in for the JS
`Array.prototype.sort()` (any correct sort computes the same list). -/
def sortStrs : List Str → List Str
  | [] => []
  | x :: xs => insertSorted x (sortStrs xs)

theorem insertSorted_perm (x : Str) (l : List Str) :
    (insertSorted x l).Perm (x :: l) := by
  induction l with
  | nil => exact List.Perm.refl _
  | cons y ys ih =>
    unfold insertSorted
    split
    · exact List.Perm.refl _
    · exact (ih.cons y).trans (List.Perm.swap x y ys)

theorem sortStrs_perm (l : List Str) : (sortStrs l).Perm l := by
  induction l with
  | nil => exact List.Perm.refl _
  | cons x xs ih => exact (insertSorted_perm x (sortStrs xs)).trans (ih.cons x)

theorem sorted_insertSorted (x : Str) (l : List Str)
    (h : l.Sorted StrLeRel) : (insertSorted x l).Sorted StrLeRel := by
  induction l with
  | nil => simp [insertSorted, List.Sorted]
  | cons y ys ih =>
    rw [List.sorted_cons] at h
    unfold insertSorted
    split
    · rename_i hxy
      rw [List.sorted_cons]
      refine ⟨fun b hb => ?_, List.sorted_cons.mpr h⟩
      rcases List.mem_cons.mp hb with rfl | hb
      · exact hxy
      · exact strLe_trans hxy (h.1 b hb)
    · rename_i hxy
      rw [List.sorted_cons]
      refine ⟨fun b hb => ?_, ih h.2⟩
      have hperm := insertSorted_perm x ys
      rcases List.mem_cons.mp (hperm.mem_iff.mp hb) with rfl | hb
      · rcases strLe_total b y with hc | hc
        · exact absurd hc hxy
        · exact hc
      · exact h.1 b hb

theorem sorted_sortStrs (l : List Str) : (sortStrs l).Sorted StrLeRel := by
  induction l with
  | nil => simp [sortStrs, List.Sorted]
  | cons x xs ih => exact sorted_insertSorted x (sortStrs xs) ih

theorem sortStrs_eq_iff_perm (l l' : List Str) :
    sortStrs l = sortStrs l' ↔ l.Perm l' := by
  constructor
  · intro h
    exact ((sortStrs_perm l).symm.trans (h ▸ sortStrs_perm l'))
  · intro h
    exact List.eq_of_perm_of_sorted
      ((sortStrs_perm l).trans (h.trans (sortStrs_perm l').symm))
      (sorted_sortStrs l) (sorted_sortStrs l')

/-- `status` values of a snapshot (`src/conflictState.ts`). -/
inductive ConflictStatus
  | clean | conflicts | error | paused | checking
deriving DecidableEq, Repr

/-- `errorKind` values of an error snapshot. -/
inductive ErrorKind
  | fetchFailed | noHead | branchMissing | mergeTreeFailed
deriving DecidableEq, Repr

/-- `ConflictSnapshot` of `src/conflictState.ts` (plus the
`dirtyTreeUsed` flag the orchestrator attaches). -/
structure ConflictSnapshot where
  timestamp : Nat
  status : ConflictStatus
  errorKind : Option ErrorKind := none
  errorMessage : Option Str := none
  conflictFiles : List ConflictFileEntry
  toplevelTreeOid : Str
  dirtyTreeUsed : Bool := false
deriving DecidableEq, Repr

/-- `StateChange` of `src/conflictState.ts`. -/
structure StateChange where
  changed : Bool
  isNewConflict : Bool
deriving DecidableEq, Repr

/-- `sortedFilePaths(snapshot)`. -/
def sortedFilePaths (s : ConflictSnapshot) : List Str :=
  sortStrs (s.conflictFiles.map (·.filepath))

/-- `conflictFileSetsEqual(a, b)`: length check plus element-wise
comparison of the sorted paths, i.e. equality of the sorted lists. -/
def conflictFileSetsEqual (a b : ConflictSnapshot) : Bool :=
  decide (sortedFilePaths a = sortedFilePaths b)

/-- The sorted comparison is exactly order-independent multiset
equality of the conflicting file paths. -/
theorem conflictFileSetsEqual_iff_perm (a b : ConflictSnapshot) :
    conflictFileSetsEqual a b = true ↔
      (a.conflictFiles.map (·.filepath)).Perm
        (b.conflictFiles.map (·.filepath)) := by
  unfold conflictFileSetsEqual sortedFilePaths
  rw [decide_eq_true_eq]
  exact sortStrs_eq_iff_perm _ _

/-- `STATUSES_THAT_TRANSITION_TO_NEW_CONFLICT`. -/
def STATUSES_THAT_TRANSITION_TO_NEW_CONFLICT : List ConflictStatus :=
  [.clean, .error, .paused]

/-- `ConflictState.update(snapshot)` (lines 75–102): the retained slot
is threaded explicitly; the pair is (returned StateChange, new slot).
The slot is replaced by the incoming snapshot unconditionally. -/
def ConflictState.update (previous : Option ConflictSnapshot)
    (snapshot : ConflictSnapshot) : StateChange × Option ConflictSnapshot :=
  match previous with
  | none =>
    ({ changed := true,
       isNewConflict := decide (snapshot.status = .conflicts) }, some snapshot)
  | some prev =>
    let statusChanged := decide (prev.status ≠ snapshot.status)
    let fileSetChanged := !conflictFileSetsEqual prev snapshot
    let changed := statusChanged || fileSetChanged
    let transitionToConflicts := decide (snapshot.status = .conflicts) &&
      decide (prev.status ∈ STATUSES_THAT_TRANSITION_TO_NEW_CONFLICT)
    let conflictSetGrew := decide (snapshot.status = .conflicts) &&
      decide (prev.status = .conflicts) && fileSetChanged
    ({ changed := changed,
       isNewConflict := transitionToConflicts || conflictSetGrew },
     some snapshot)

/-- `ConflictState.reset()`: the slot reverts to `undefined`. -/
def ConflictState.reset : Option ConflictSnapshot := none

/-! ## Detection orchestrator (`src/conflictDetector.ts`)

One `checkNow` cycle is modelled as a pure function of the detector
state and a record scripting the outcome of every external git call of
that cycle (`none` = the call threw). The cycle returns the list of
events fired on `onConflictsUpdated` / `onAutoPulled`, in order, and
the successor state. The `isRunning` re-entrancy guard is vacuous in
this single-threaded model. -/

/-- Outcome of one git invocation: captured stdout and exit code. -/
structure GitRes where
  stdout : Str
  exitCode : Int
deriving DecidableEq, Repr

/-- `getConfig()` (`src/config.ts`). -/
structure WatcherConfig where
  remote : Str
  branch : Str
  pollIntervalMs : Nat
  enabled : Bool
  autoPull : Bool
deriving DecidableEq, Repr

/-- The scripted outcomes of the external calls of one cycle, plus the
wall clock and the configuration read at the start of the cycle. -/
structure CycleOutcomes where
  now : Nat
  config : WatcherConfig
  fetch : Option GitRes
  revParseHead : Option GitRes
  revParseRemote : Option GitRes
  upstream : Option GitRes
  pullRebase : Option GitRes
  revParseHeadAfterRebase : Option GitRes
  revListCount : Option GitRes
  statusTracked : Option GitRes
  stashCreate : Option GitRes
  revParseTree : Option GitRes
  mergeTreeModern : Option GitRes
  mergeBase : Option GitRes
  mergeTreeLegacy : Option GitRes
deriving DecidableEq, Repr

/-- The orchestrator's mutable fields (the differ slot is
`ConflictState.previous`). -/
structure DetectorState where
  differ : Option ConflictSnapshot
  isPaused : Bool
  useModern : Bool
  resolvedFiles : List Str
  lastRawFilepaths : List Str
  lastHeadTree : Str
deriving DecidableEq, Repr

/-- An event fired on one of the detector's two emitters. -/
inductive DetectorEvent where
  | conflictsUpdated (snapshot : ConflictSnapshot) (change : StateChange)
  | autoPulled (commitCount : Int) (newHead : Str)
deriving DecidableEq, Repr

/-- `Set.add`: JS sets keep insertion order and ignore duplicates. -/
def setAdd (s : List Str) (x : Str) : List Str :=
  if x ∈ s then s else s ++ [x]

/-- Value of a base-10 digit run. -/
def digitsToNat (ds : Str) : Nat :=
  ds.foldl (fun acc c => acc * 10 + (c.toNat - '0'.toNat)) 0

/-- `parseInt(s, 10)`: skip leading whitespace, optional sign, then a
non-empty digit run (`none` = `NaN`). -/
def jsParseInt (s : Str) : Option Int :=
  let s1 := s.dropWhile isJsWhitespace
  match s1 with
  | '-' :: rest =>
    let ds := rest.takeWhile isDigitCh
    if ds = [] then none else some (-(digitsToNat ds : Int))
  | '+' :: rest =>
    let ds := rest.takeWhile isDigitCh
    if ds = [] then none else some ((digitsToNat ds : Int))
  | _ =>
    let ds := s1.takeWhile isDigitCh
    if ds = [] then none else some ((digitsToNat ds : Int))

/-- `parseInt(s, 10) || 0`: `NaN` collapses to 0 (and `0 || 0` is 0). -/
def jsParseIntOr0 (s : Str) : Int := (jsParseInt s).getD 0

/-- The `checking` snapshot fired at the start of every cycle. -/
def checkingSnapshot (now : Nat) : ConflictSnapshot :=
  { timestamp := now, status := .checking, conflictFiles := [],
    toplevelTreeOid := [] }

/-- The snapshot built by `emitError`. -/
def errorSnapshot (now : Nat) (kind : ErrorKind) (msg : Str) :
    ConflictSnapshot :=
  { timestamp := now, status := .error, errorKind := some kind,
    errorMessage := some msg, conflictFiles := [], toplevelTreeOid := [] }

/-- `emitError` (lines 274–286): builds the error snapshot, passes it
through the differ, and fires it with the resulting change. -/
def emitError (st : DetectorState) (now : Nat) (kind : ErrorKind)
    (msg : Str) : List DetectorEvent × DetectorState :=
  let snapshot := errorSnapshot now kind msg
  let r := ConflictState.update st.differ snapshot
  ([.conflictsUpdated snapshot r.1], { st with differ := r.2 })

/-- Step 3.5, the auto-pull sub-step (lines 110–137): any throw inside
is swallowed; on rebase success the `onAutoPulled` event is fired
unconditionally (the commit count is not inspected). Returns the fired
events and the possibly advanced `head`. -/
def autoPullStep (o : CycleOutcomes) (head : Str) :
    List DetectorEvent × Str :=
  if o.config.autoPull then
    match o.upstream with
    | none => ([], head)
    | some up =>
      if up.exitCode ≠ 0 then ([], head)
      else if head = jsTrim up.stdout then ([], head)
      else
        match o.pullRebase with
        | none => ([], head)
        | some rb =>
          if rb.exitCode = 0 then
            match o.revParseHeadAfterRebase with
            | none => ([], head)
            | some nh =>
              let newHead := jsTrim nh.stdout
              match o.revListCount with
              | none => ([], newHead)
              | some cnt =>
                ([.autoPulled (jsParseIntOr0 (jsTrim cnt.stdout)) newHead],
                 newHead)
          else ([], head)
  else ([], head)

/-- Step 3.9 (lines 139–154): when tracked files are dirty and
`stash create` yields a truthy SHA, that SHA replaces `head` and
`dirtyTreeUsed` is set; any throw falls back to `head`. -/
def dirtyTreeStep (o : CycleOutcomes) (head : Str) : Str × Bool :=
  match o.statusTracked with
  | none => (head, false)
  | some tr =>
    if jsTrim tr.stdout ≠ [] then
      match o.stashCreate with
      | none => (head, false)
      | some sc =>
        if jsTrim sc.stdout ≠ [] then (jsTrim sc.stdout, true)
        else (head, false)
    else (head, false)

/-- Resolution of `head^{tree}` (lines 156–163), falling back to the
commit SHA. -/
def headTreeStep (o : CycleOutcomes) (head : Str) : Str :=
  match o.revParseTree with
  | none => head
  | some t => jsTrim t.stdout

/-- Step 4's merge simulation and parse (lines 166–191): `none` means
some involved call threw, which `checkNow` turns into
`merge-tree-failed`. -/
def mergeSimulationStep (useModern : Bool) (o : CycleOutcomes) :
    Option MergeTreeResult :=
  if useModern then
    match o.mergeTreeModern with
    | none => none
    | some r => some (parseModernMergeTree r.stdout r.exitCode)
  else
    match o.mergeBase with
    | none => none
    | some _ =>
      match o.mergeTreeLegacy with
      | none => none
      | some r => some (parseLegacyMergeTree r.stdout)

/-- Steps 10–12 (lines 193–219): resolved-file bookkeeping, filtering,
status recomputation, differ update, publication. -/
def publishParsed (st : DetectorState) (now : Nat)
    (parsed : MergeTreeResult) (headTree : Str) (dirtyTreeUsed : Bool) :
    List DetectorEvent × DetectorState :=
  let snapshot0 : ConflictSnapshot :=
    { timestamp := now,
      status := if parsed.hasConflicts then .conflicts else .clean,
      conflictFiles := parsed.conflictFiles,
      toplevelTreeOid := parsed.toplevelTreeOid,
      dirtyTreeUsed := dirtyTreeUsed }
  let rawFilepaths := sortStrs (snapshot0.conflictFiles.map (·.filepath))
  let resolved :=
    if headTree ≠ st.lastHeadTree ∨ rawFilepaths ≠ st.lastRawFilepaths
    then [] else st.resolvedFiles
  let effectiveFiles := snapshot0.conflictFiles.filter
    fun f => decide (f.filepath ∉ resolved)
  let snapshot := { snapshot0 with
    conflictFiles := effectiveFiles,
    status := if 0 < effectiveFiles.length then ConflictStatus.conflicts
      else ConflictStatus.clean }
  let r := ConflictState.update st.differ snapshot
  ([.conflictsUpdated snapshot r.1],
   { st with
     differ := r.2, resolvedFiles := resolved,
     lastHeadTree := headTree, lastRawFilepaths := rawFilepaths })

/-- `checkNow()` (lines 61–226): the `checking` snapshot is fired first
with the fixed change `{changed: true, isNewConflict: false}` and
without consulting the differ; each failing step short-circuits into
`emitError`. -/
def checkNow (st : DetectorState) (o : CycleOutcomes) :
    List DetectorEvent × DetectorState :=
  let checkingEvent := DetectorEvent.conflictsUpdated (checkingSnapshot o.now)
    { changed := true, isNewConflict := false }
  let body : List DetectorEvent × DetectorState :=
    match o.fetch with
    | none =>
      emitError st o.now .fetchFailed
        ("Failed to fetch from ".toList ++ o.config.remote)
    | some _ =>
      match o.revParseHead with
      | none => emitError st o.now .noHead "Failed to resolve HEAD".toList
      | some headRes =>
        match o.revParseRemote with
        | none =>
          emitError st o.now .branchMissing
            ("Remote branch ".toList ++ o.config.remote ++
              '/' :: o.config.branch ++ " not found".toList)
        | some _ =>
          let ap := autoPullStep o (jsTrim headRes.stdout)
          let dt := dirtyTreeStep o ap.2
          let headTree := headTreeStep o dt.1
          match mergeSimulationStep st.useModern o with
          | none =>
            let e := emitError st o.now .mergeTreeFailed
              "merge-tree failed".toList
            (ap.1 ++ e.1, e.2)
          | some parsed =>
            let pub := publishParsed st o.now parsed headTree dt.2
            (ap.1 ++ pub.1, pub.2)
  (checkingEvent :: body.1, body.2)

/-- `markResolved(filepath)` (lines 245–264): the path joins the
resolved set immediately; when the retained status is `conflicts`, a
fresh filtered snapshot is published through the differ. -/
def markResolved (st : DetectorState) (now : Nat) (filepath : Str) :
    List DetectorEvent × DetectorState :=
  let resolved := setAdd st.resolvedFiles filepath
  let st1 := { st with resolvedFiles := resolved }
  match st1.differ with
  | some current =>
    if current.status = .conflicts then
      let effectiveFiles := current.conflictFiles.filter
        fun f => decide (f.filepath ∉ resolved)
      let snapshot := { current with
        timestamp := now,
        conflictFiles := effectiveFiles,
        status := if 0 < effectiveFiles.length then ConflictStatus.conflicts
          else ConflictStatus.clean }
      let r := ConflictState.update st1.differ snapshot
      ([.conflictsUpdated snapshot r.1], { st1 with differ := r.2 })
    else ([], st1)
  | none => ([], st1)

/-- The `onAutoPulled` listener registered in `activate`
(`src/extension.ts`): whether the user-facing information message is
shown — a commit count of exactly 0 returns early. -/
def autoPulledHandler (commitCount : Int) : Bool :=
  if commitCount = 0 then false else true

/-! ## Helper characterizations of the differ -/

theorem update_snd (p : Option ConflictSnapshot) (s : ConflictSnapshot) :
    (ConflictState.update p s).2 = some s := by
  cases p <;> rfl

theorem update_changed (prev snap : ConflictSnapshot) :
    (ConflictState.update (some prev) snap).1.changed = true ↔
      prev.status ≠ snap.status ∨ conflictFileSetsEqual prev snap = false := by
  unfold ConflictState.update
  simp only [Bool.or_eq_true, decide_eq_true_eq, Bool.not_eq_true']

theorem update_isNewConflict (prev snap : ConflictSnapshot) :
    (ConflictState.update (some prev) snap).1.isNewConflict = true ↔
      snap.status = .conflicts ∧
        (prev.status ∈ STATUSES_THAT_TRANSITION_TO_NEW_CONFLICT ∨
          (prev.status = .conflicts ∧
            conflictFileSetsEqual prev snap = false)) := by
  unfold ConflictState.update
  simp only [Bool.or_eq_true, Bool.and_eq_true, decide_eq_true_eq,
    Bool.not_eq_true']
  tauto

theorem fileSetsEqual_false_iff (prev snap : ConflictSnapshot) :
    conflictFileSetsEqual prev snap = false ↔
      ¬ (prev.conflictFiles.map (·.filepath)).Perm
          (snap.conflictFiles.map (·.filepath)) := by
  rw [← conflictFileSetsEqual_iff_perm]
  cases conflictFileSetsEqual prev snap <;> simp

/-! ## Claim theorems -/

/-- C2: on the first-ever call (or the first call after `reset`),
`changed=true` and `isNewConflict=(status=='conflicts')`; on every
later call `isNewConflict` holds iff the new status is `conflicts` and
the prior status was `clean`/`error`/`paused`, or was `conflicts` with
a different order-independent file-path set; in particular a
conflicts→conflicts transition with an identical set, or any
transition out of `checking`, yields `isNewConflict=false`. -/
theorem C2_differ_update (snap : ConflictSnapshot) :
    (ConflictState.update none snap).1 =
      { changed := true, isNewConflict := decide (snap.status = .conflicts) } ∧
    ∀ prev : ConflictSnapshot,
      ((ConflictState.update (some prev) snap).1.isNewConflict = true ↔
        (snap.status = .conflicts ∧
          (prev.status = .clean ∨ prev.status = .error ∨
            prev.status = .paused ∨
            (prev.status = .conflicts ∧
              ¬ (prev.conflictFiles.map (·.filepath)).Perm
                  (snap.conflictFiles.map (·.filepath)))))) ∧
      (prev.status = .checking →
        (ConflictState.update (some prev) snap).1.isNewConflict = false) ∧
      (prev.status = .conflicts → snap.status = .conflicts →
        (prev.conflictFiles.map (·.filepath)).Perm
          (snap.conflictFiles.map (·.filepath)) →
        (ConflictState.update (some prev) snap).1.isNewConflict = false) := by
  refine ⟨rfl, fun prev => ⟨?_, ?_, ?_⟩⟩
  · rw [update_isNewConflict]
    unfold STATUSES_THAT_TRANSITION_TO_NEW_CONFLICT
    rw [fileSetsEqual_false_iff]
    simp only [List.mem_cons, List.not_mem_nil, or_false]
    tauto
  · intro hc
    rw [← Bool.not_eq_true, update_isNewConflict, hc]
    unfold STATUSES_THAT_TRANSITION_TO_NEW_CONFLICT
    rintro ⟨-, h | ⟨h, -⟩⟩ <;> simp at h
  · intro hp hs hperm
    rw [← Bool.not_eq_true, update_isNewConflict, hp]
    unfold STATUSES_THAT_TRANSITION_TO_NEW_CONFLICT
    rintro ⟨-, h | ⟨-, h⟩⟩
    · simp at h
    · rw [fileSetsEqual_false_iff] at h
      exact h hperm

/-- Concrete snapshots for the C2 witness. -/
def c2snap : ConflictSnapshot :=
  { timestamp := 2, status := .conflicts,
    conflictFiles := [⟨"a.txt".toList, EMPTY_OID, EMPTY_OID, EMPTY_OID⟩],
    toplevelTreeOid := [] }

def c2prevChecking : ConflictSnapshot :=
  { timestamp := 1, status := .checking, conflictFiles := [],
    toplevelTreeOid := [] }

theorem C2_witness :
    (ConflictState.update (some c2prevChecking) c2snap).1.isNewConflict =
      false :=
  ((C2_differ_update c2snap).2 c2prevChecking).2.1 rfl

/-- C7: every result of either parser satisfies
`hasConflicts == (conflictFiles.length > 0)`. -/
theorem C7_hasConflicts_invariant (s : Str) (ec : Int) :
    (parseModernMergeTree s ec).hasConflicts =
      decide (0 < (parseModernMergeTree s ec).conflictFiles.length) ∧
    (parseLegacyMergeTree s).hasConflicts =
      decide (0 < (parseLegacyMergeTree s).conflictFiles.length) := by
  constructor
  · unfold parseModernMergeTree
    by_cases hec : ec = 0 <;> simp [hec]
  · unfold parseLegacyMergeTree parseLegacyLines
    simp

/-- C9: every exit code other than 0 is treated exactly like exit code
1 by the modern parser. -/
theorem C9_nonzero_exit (s : Str) (ec : Int) (h : ec ≠ 0) :
    parseModernMergeTree s ec = parseModernMergeTree s 1 := by
  unfold parseModernMergeTree
  rw [if_neg h, if_neg (by norm_num)]

theorem C9_witness :
    (2 : Int) ≠ 0 ∧
      parseModernMergeTree "T".toList 2 = parseModernMergeTree "T".toList 1 :=
  ⟨by decide, C9_nonzero_exit "T".toList 2 (by decide)⟩

/-- The error snapshot produced when the fetch step fails. -/
def fetchFailedSnapshot (o : CycleOutcomes) : ConflictSnapshot :=
  errorSnapshot o.now .fetchFailed
    ("Failed to fetch from ".toList ++ o.config.remote)

/-- C5: when the fetch step fails, the cycle publishes exactly the
checking snapshot followed by an error snapshot with
`errorKind=fetch-failed` and `conflictFiles=[]`, skips everything else
(only the differ slot changes), and routes that snapshot through the
differ: it reports `changed=true` after a `conflicts` snapshot and
`changed=false` after an error snapshot with an empty file list. -/
theorem C5_fetch_failure (st : DetectorState) (o : CycleOutcomes)
    (h : o.fetch = none) :
    (checkNow st o).1 =
      [.conflictsUpdated (checkingSnapshot o.now)
         { changed := true, isNewConflict := false },
       .conflictsUpdated (fetchFailedSnapshot o)
         ((ConflictState.update st.differ (fetchFailedSnapshot o)).1)] ∧
    (checkNow st o).2 = { st with differ := some (fetchFailedSnapshot o) } ∧
    (fetchFailedSnapshot o).status = .error ∧
    (fetchFailedSnapshot o).errorKind = some .fetchFailed ∧
    (fetchFailedSnapshot o).conflictFiles = [] ∧
    (∀ prev, st.differ = some prev → prev.status = .conflicts →
      (ConflictState.update st.differ (fetchFailedSnapshot o)).1.changed =
        true) ∧
    (∀ prev, st.differ = some prev → prev.status = .error →
      prev.conflictFiles = [] →
      (ConflictState.update st.differ (fetchFailedSnapshot o)).1.changed =
        false) := by
  have hck : checkNow st o =
      ([.conflictsUpdated (checkingSnapshot o.now)
          { changed := true, isNewConflict := false },
        .conflictsUpdated (fetchFailedSnapshot o)
          ((ConflictState.update st.differ (fetchFailedSnapshot o)).1)],
       { st with
         differ := (ConflictState.update st.differ
           (fetchFailedSnapshot o)).2 }) := by
    unfold checkNow emitError
    rw [h]
    rfl
  refine ⟨by rw [hck], by rw [hck, update_snd], rfl, rfl, rfl, ?_, ?_⟩
  · intro prev hprev hst
    rw [hprev, update_changed]
    left
    rw [hst]
    intro hc
    cases hc
  · intro prev hprev hst hfiles
    rw [hprev, ← Bool.not_eq_true, update_changed]
    rintro (hne | hf)
    · exact hne (by rw [hst]; rfl)
    · rw [fileSetsEqual_false_iff, hfiles] at hf
      exact hf (by rfl)

def c5o : CycleOutcomes :=
  { now := 5,
    config := ⟨"origin".toList, "main".toList, 60000, true, false⟩,
    fetch := none, revParseHead := none, revParseRemote := none,
    upstream := none, pullRebase := none, revParseHeadAfterRebase := none,
    revListCount := none, statusTracked := none, stashCreate := none,
    revParseTree := none, mergeTreeModern := none, mergeBase := none,
    mergeTreeLegacy := none }

def c5st : DetectorState := ⟨none, false, true, [], [], []⟩

theorem C5_witness :
    c5o.fetch = none ∧ (checkNow c5st c5o).1.length = 2 ∧
      (checkNow c5st c5o).2.differ = some (fetchFailedSnapshot c5o) :=
  ⟨rfl,
   by rw [(C5_fetch_failure c5st c5o rfl).1]; rfl,
   by rw [(C5_fetch_failure c5st c5o rfl).2.1]⟩

/-- C6: `markResolved(p)` while the retained snapshot has status
`conflicts` adds `p` to the resolved set and immediately publishes one
snapshot whose files are the retained files minus all resolved paths,
with status `conflicts` iff the filtered list is non-empty (else
`clean`), routed through the differ. -/
theorem C6_markResolved (st : DetectorState) (now : Nat) (p : Str)
    (cur : ConflictSnapshot) (hc : st.differ = some cur)
    (hs : cur.status = .conflicts) :
    markResolved st now p =
      (let resolved := setAdd st.resolvedFiles p
       let effective := cur.conflictFiles.filter
         fun f => decide (f.filepath ∉ resolved)
       let snap : ConflictSnapshot := { cur with
         timestamp := now, conflictFiles := effective,
         status := if 0 < effective.length then ConflictStatus.conflicts
           else ConflictStatus.clean }
       ([.conflictsUpdated snap ((ConflictState.update (some cur) snap).1)],
        { st with resolvedFiles := resolved, differ := some snap })) ∧
    p ∈ setAdd st.resolvedFiles p ∧
    ∀ f ∈ cur.conflictFiles.filter
        (fun f => decide (f.filepath ∉ setAdd st.resolvedFiles p)),
      f.filepath ∉ setAdd st.resolvedFiles p := by
  refine ⟨?_, ?_, ?_⟩
  · unfold markResolved
    rw [hc]
    simp only [if_pos hs, update_snd]
  · unfold setAdd
    by_cases hp : p ∈ st.resolvedFiles
    · rw [if_pos hp]; exact hp
    · rw [if_neg hp]; simp
  · intro f hf
    have := (List.mem_filter.mp hf).2
    exact of_decide_eq_true this

def c6entA : ConflictFileEntry :=
  ⟨"a.txt".toList, EMPTY_OID, EMPTY_OID, EMPTY_OID⟩

def c6entB : ConflictFileEntry :=
  ⟨"b.txt".toList, EMPTY_OID, EMPTY_OID, EMPTY_OID⟩

def c6cur : ConflictSnapshot :=
  { timestamp := 1, status := .conflicts, conflictFiles := [c6entA, c6entB],
    toplevelTreeOid := "T".toList }

def c6st : DetectorState :=
  ⟨some c6cur, false, true, [], ["a.txt".toList, "b.txt".toList],
   "tree1".toList⟩

/-- Scenario E: resolving `a.txt` publishes `conflictFiles=[b.txt]`
with status `conflicts`; then resolving `b.txt` publishes `clean`. -/
theorem C6_witness :
    ((markResolved c6st 7 "a.txt".toList).1.map
      fun ev => match ev with
        | .conflictsUpdated s _ => (s.status, s.conflictFiles)
        | .autoPulled _ _ => (.checking, [])) =
      [(ConflictStatus.conflicts, [c6entB])] ∧
    ((markResolved (markResolved c6st 7 "a.txt".toList).2 8
        "b.txt".toList).1.map
      fun ev => match ev with
        | .conflictsUpdated s _ => (s.status, s.conflictFiles)
        | .autoPulled _ _ => (.checking, [])) =
      [(ConflictStatus.clean, [])] := by
  constructor
  · rw [(C6_markResolved c6st 7 "a.txt".toList c6cur rfl rfl).1]
    decide
  · rw [(C6_markResolved (markResolved c6st 7 "a.txt".toList).2 8
      "b.txt".toList
      { c6cur with timestamp := 7, conflictFiles := [c6entB] }
      (by decide) (by decide)).1]
    decide

theorem emitError_structure (st : DetectorState) (now : Nat)
    (kind : ErrorKind) (msg : Str) :
    (emitError st now kind msg).1 =
      [.conflictsUpdated (errorSnapshot now kind msg)
        ((ConflictState.update st.differ (errorSnapshot now kind msg)).1)] ∧
    (emitError st now kind msg).2.differ =
      some (errorSnapshot now kind msg) := by
  unfold emitError
  exact ⟨rfl, update_snd _ _⟩

theorem publishParsed_structure (st : DetectorState) (now : Nat)
    (parsed : MergeTreeResult) (headTree : Str) (dirty : Bool) :
    ∃ snap : ConflictSnapshot,
      (publishParsed st now parsed headTree dirty).1 =
        [.conflictsUpdated snap ((ConflictState.update st.differ snap).1)] ∧
      (publishParsed st now parsed headTree dirty).2.differ = some snap ∧
      (snap.status = .conflicts ∨ snap.status = .clean) := by
  unfold publishParsed
  refine ⟨_, rfl, update_snd _ _, ?_⟩
  by_cases h : 0 < (parsed.conflictFiles.filter fun f =>
      decide (f.filepath ∉
        (if headTree ≠ st.lastHeadTree ∨
            sortStrs (parsed.conflictFiles.map (·.filepath)) ≠
              st.lastRawFilepaths
          then [] else st.resolvedFiles))).length
  · left; simp only [if_pos h]
  · right; simp only [if_neg h]

/-- Every `checkNow` cycle ends by retaining exactly the snapshot of
its last published event, that snapshot went through the differ
against the pre-cycle slot, and its status is never `checking`. -/
theorem checkNow_structure (st : DetectorState) (o : CycleOutcomes) :
    ∃ snap : ConflictSnapshot,
      (checkNow st o).2.differ = some snap ∧
      snap.status ≠ .checking ∧
      (checkNow st o).1.getLast? =
        some (.conflictsUpdated snap
          ((ConflictState.update st.differ snap).1)) := by
  unfold checkNow
  cases hf : o.fetch with
  | none =>
    refine ⟨fetchFailedSnapshot o, update_snd _ _, ?_, ?_⟩
    · intro h; cases h
    · rfl
  | some fres =>
    cases hh : o.revParseHead with
    | none =>
      refine ⟨errorSnapshot o.now .noHead "Failed to resolve HEAD".toList,
        update_snd _ _, ?_, ?_⟩
      · intro h; cases h
      · rfl
    | some headRes =>
      cases hr : o.revParseRemote with
      | none =>
        refine ⟨errorSnapshot o.now .branchMissing
            ("Remote branch ".toList ++ o.config.remote ++
              '/' :: o.config.branch ++ " not found".toList),
          update_snd _ _, ?_, ?_⟩
        · intro h; cases h
        · rfl
      | some rres =>
        cases hm : mergeSimulationStep st.useModern o with
        | none =>
          refine ⟨errorSnapshot o.now .mergeTreeFailed
              "merge-tree failed".toList, ?_, ?_, ?_⟩
          · simp only [hm]
            exact update_snd _ _
          · intro h; cases h
          · simp only [hm, (emitError_structure st o.now .mergeTreeFailed
              "merge-tree failed".toList).1]
            rw [← List.cons_append, List.getLast?_concat]
        | some parsed =>
          obtain ⟨snap, h1, h2, h3⟩ := publishParsed_structure st o.now
            parsed
            (headTreeStep o
              (dirtyTreeStep o (autoPullStep o (jsTrim headRes.stdout)).2).1)
            (dirtyTreeStep o (autoPullStep o (jsTrim headRes.stdout)).2).2
          refine ⟨snap, ?_, ?_, ?_⟩
          · simp only [hm]
            exact h2
          · rcases h3 with h | h <;> rw [h] <;> intro hc <;> cases hc
          · simp only [hm, h1]
            rw [← List.cons_append, List.getLast?_concat]

/-- C10: the differ's retained snapshot never has status `checking`
under orchestrator use — `checkNow` fires its `checking` snapshot
first, with the fixed change `{changed=true, isNewConflict=false}` and
without consulting the differ — so a cycle whose resulting snapshot
matches the previously retained status and (order-independent) file
set reports `changed=false` despite the interleaved `checking`
publication. -/
theorem C10_checking_bypass :
    (∀ (st : DetectorState) (o : CycleOutcomes),
      (checkNow st o).1.head? =
        some (.conflictsUpdated (checkingSnapshot o.now)
          { changed := true, isNewConflict := false })) ∧
    (∀ (st : DetectorState) (o : CycleOutcomes) snap,
      (checkNow st o).2.differ = some snap → snap.status ≠ .checking) ∧
    (∀ (st : DetectorState) (o : CycleOutcomes) prev snap ch,
      st.differ = some prev →
      (checkNow st o).1.getLast? = some (.conflictsUpdated snap ch) →
      prev.status = snap.status →
      (prev.conflictFiles.map (·.filepath)).Perm
        (snap.conflictFiles.map (·.filepath)) →
      ch.changed = false) := by
  refine ⟨fun st o => rfl, fun st o snap hd => ?_, ?_⟩
  · obtain ⟨snap', h1, h2, -⟩ := checkNow_structure st o
    rw [h1] at hd
    injection hd with hd
    exact hd ▸ h2
  · intro st o prev snap ch hprev hlast hstat hperm
    obtain ⟨snap', -, -, h3⟩ := checkNow_structure st o
    rw [h3] at hlast
    injection hlast with hlast
    injection hlast with hsnap hch
    subst hsnap
    rw [← hch, hprev, ← Bool.not_eq_true, update_changed]
    rintro (hne | hfs)
    · exact hne hstat
    · rw [fileSetsEqual_false_iff] at hfs
      exact hfs hperm

def c10prev : ConflictSnapshot :=
  { timestamp := 3, status := .clean, conflictFiles := [],
    toplevelTreeOid := "T".toList }

def c10st : DetectorState :=
  ⟨some c10prev, false, true, [], [], "tree9".toList⟩

def c10o : CycleOutcomes :=
  { now := 9,
    config := ⟨"origin".toList, "main".toList, 60000, true, false⟩,
    fetch := some ⟨[], 0⟩, revParseHead := some ⟨"headsha".toList, 0⟩,
    revParseRemote := some ⟨"remotesha".toList, 0⟩, upstream := none,
    pullRebase := none, revParseHeadAfterRebase := none,
    revListCount := none, statusTracked := some ⟨[], 0⟩,
    stashCreate := none, revParseTree := some ⟨"tree9".toList, 0⟩,
    mergeTreeModern := some ⟨"T".toList, 0⟩, mergeBase := none,
    mergeTreeLegacy := none }

def c10snap : ConflictSnapshot :=
  { timestamp := 9, status := .clean, conflictFiles := [],
    toplevelTreeOid := "T".toList }

theorem C10_witness :
    (StateChange.mk false false).changed = false :=
  C10_checking_bypass.2.2 c10st c10o c10prev c10snap ⟨false, false⟩ rfl
    (by decide) rfl (by decide)

def c3st : DetectorState := ⟨none, false, true, [], [], []⟩

/-- A cycle whose rebase succeeds while `rev-list --count` reports 0
commits advanced. -/
def c3o : CycleOutcomes :=
  { now := 6,
    config := ⟨"origin".toList, "main".toList, 60000, true, true⟩,
    fetch := some ⟨[], 0⟩,
    revParseHead := some ⟨"headsha".toList, 0⟩,
    revParseRemote := some ⟨"remotesha".toList, 0⟩,
    upstream := some ⟨"upstreamsha".toList, 0⟩,
    pullRebase := some ⟨[], 0⟩,
    revParseHeadAfterRebase := some ⟨"newhead".toList, 0⟩,
    revListCount := some ⟨"0".toList, 0⟩,
    statusTracked := some ⟨[], 0⟩,
    stashCreate := none,
    revParseTree := some ⟨"tree1".toList, 0⟩,
    mergeTreeModern := some ⟨"T".toList, 0⟩,
    mergeBase := none, mergeTreeLegacy := none }

/-- C3 counterexample: with a commit count of 0 the auto-update event
`(0, newhead)` is still fired by the orchestrator — a zero count does
not suppress the event emission (only the extension listener's
user-facing message is suppressed). -/
theorem C3_counterexample :
    DetectorEvent.autoPulled 0 "newhead".toList ∈ (checkNow c3st c3o).1 ∧
    autoPulledHandler 0 = false := by decide

/-- C3 amended: whenever the auto-pull sub-step reaches a successful
rebase (auto-pull on, upstream resolved with exit 0 and differing from
HEAD, rebase exit 0, post-rebase HEAD and commit count obtained), the
`onAutoPulled` event fires with the parsed count — whatever its value;
the zero-count suppression lives in the extension's listener, which
shows the notification exactly when the count is non-zero. -/
theorem C3_autoPulled_amended (st : DetectorState) (o : CycleOutcomes)
    (f hr rr up rb nh cnt : GitRes)
    (hf : o.fetch = some f) (hh : o.revParseHead = some hr)
    (hrr : o.revParseRemote = some rr)
    (hap : o.config.autoPull = true)
    (hup : o.upstream = some up) (hup0 : up.exitCode = 0)
    (hne : jsTrim hr.stdout ≠ jsTrim up.stdout)
    (hrb : o.pullRebase = some rb) (hrb0 : rb.exitCode = 0)
    (hnh : o.revParseHeadAfterRebase = some nh)
    (hcnt : o.revListCount = some cnt) :
    DetectorEvent.autoPulled (jsParseIntOr0 (jsTrim cnt.stdout))
      (jsTrim nh.stdout) ∈ (checkNow st o).1 ∧
    ∀ k : Int, autoPulledHandler k = decide (k ≠ 0) := by
  constructor
  · have hap1 : (autoPullStep o (jsTrim hr.stdout)).1 =
        [.autoPulled (jsParseIntOr0 (jsTrim cnt.stdout))
          (jsTrim nh.stdout)] := by
      unfold autoPullStep
      simp only [hap, if_true, hup, hup0, hrb, hrb0, hnh, hcnt, ne_eq,
        not_true_eq_false, decide_not, if_neg hne]
      simp
    unfold checkNow
    simp only [hf, hh, hrr]
    cases hm : mergeSimulationStep st.useModern o <;>
      simp [hm, hap1]
  · intro k
    unfold autoPulledHandler
    by_cases hk : k = 0 <;> simp [hk]

/-- Same cycle as the counterexample but with 2 commits counted. -/
def c3wo : CycleOutcomes :=
  { c3o with now := 7, revListCount := some ⟨"2".toList, 0⟩ }

theorem C3_witness :
    c3wo.config.autoPull = true ∧
    DetectorEvent.autoPulled
        (jsParseIntOr0 (jsTrim ("2".toList : Str)))
        (jsTrim ("newhead".toList : Str)) ∈ (checkNow c3st c3wo).1 :=
  ⟨rfl,
   (C3_autoPulled_amended c3st c3wo ⟨[], 0⟩ ⟨"headsha".toList, 0⟩
     ⟨"remotesha".toList, 0⟩ ⟨"upstreamsha".toList, 0⟩ ⟨[], 0⟩
     ⟨"newhead".toList, 0⟩ ⟨"2".toList, 0⟩ rfl rfl rfl rfl rfl rfl
     (by decide) rfl rfl rfl rfl).1⟩

theorem setStage_id (o : StageOids) (stage : Char) (oid : Str)
    (h : stage ∉ (['1', '2', '3'] : List Char)) :
    setStage o stage oid = o := by
  simp only [List.mem_cons, List.not_mem_nil, or_false, not_or] at h
  unfold setStage
  rw [if_neg h.1, if_neg h.2.1, if_neg h.2.2]

theorem alookup_append_none (key : Str) (m : StageMap) (v : StageOids)
    (h : alookup key m = none) :
    alookup key (m ++ [(key, v)]) = some v := by
  induction m with
  | nil => simp [alookup]
  | cons e rest ih =>
    obtain ⟨k, o⟩ := e
    rw [List.cons_append]
    unfold alookup at h ⊢
    by_cases hk : k = key
    · rw [if_pos hk] at h; cases h
    · rw [if_neg hk] at h ⊢
      exact ih h

theorem aupdate_congr_id (key : Str) (f : StageOids → StageOids)
    (m : StageMap) (h : ∀ o, f o = o) : aupdate key f m = m := by
  induction m with
  | nil => rfl
  | cons e rest ih =>
    unfold aupdate
    by_cases hk : e.1 = key
    · rw [if_pos hk, h]
    · rw [if_neg hk, ih]

def c4input : Str :=
  "T\n100644 ".toList ++ List.replicate 40 'a' ++ " 4\tx.txt".toList

/-- C4 counterexample: a stage-section line whose stage digit is `4`
(so it does not have the `<stage 1|2|3>` shape) is NOT appended to
`messages`; instead it creates a conflict-file entry for its path with
every oid left at the sentinel. -/
theorem C4_counterexample :
    (parseModernMergeTree c4input 1).messages = [] ∧
    (parseModernMergeTree c4input 1).conflictFiles =
      [⟨"x.txt".toList, EMPTY_OID, EMPTY_OID, EMPTY_OID⟩] := by decide

/-- C4 amended: a stage-section line that fails `MODERN_STAGE_RE`
(whose stage group is `(\d)`, any digit) is appended verbatim to
`messages` and parsing continues; a line that matches with a stage
digit outside 1–3 is not a message: it creates (or keeps) a stage-map
entry for its filepath and sets no stage field. -/
theorem C4_stage_section_amended :
    (∀ (st : ModernLoopState) (line : Str),
      st.inMessages = false → line ≠ [] → modernStageMatch line = none →
      modernStep st line = { st with messages := st.messages ++ [line] }) ∧
    (∀ (st : ModernLoopState) (line : Str) (m : ModernStageMatch),
      st.inMessages = false → modernStageMatch line = some m →
      m.stage ∉ (['1', '2', '3'] : List Char) →
      (modernStep st line).messages = st.messages ∧
      alookup m.filepath (modernStep st line).stageMap =
        some ((alookup m.filepath st.stageMap).getD emptyStageOids)) := by
  constructor
  · intro st line hmsg hne hmatch
    unfold modernStep
    rw [if_neg (by rw [hmsg]; exact Bool.false_ne_true), if_neg hne, hmatch]
  · intro st line m hmsg hmatch hstage
    have hne : line ≠ [] := by
      intro hc
      rw [hc] at hmatch
      cases hmatch
    unfold modernStep
    rw [if_neg (by rw [hmsg]; exact Bool.false_ne_true), if_neg hne, hmatch]
    refine ⟨rfl, ?_⟩
    show alookup m.filepath
      (mapUpsert st.stageMap m.filepath
        fun o => setStage o m.stage m.oid) = _
    unfold mapUpsert
    cases hl : alookup m.filepath st.stageMap with
    | none =>
      rw [alookup_append_none _ _ _ hl,
        show (fun o => setStage o m.stage m.oid) emptyStageOids =
          emptyStageOids from setStage_id _ _ _ hstage]
      rfl
    | some o =>
      rw [aupdate_congr_id _ _ _ (fun o => setStage_id o m.stage m.oid
        hstage), hl]
      rfl

theorem C4_witness :
    modernStep ⟨[], [], false⟩ "junk".toList =
      { stageMap := [], messages := ["junk".toList], inMessages := false } :=
  C4_stage_section_amended.1 ⟨[], [], false⟩ "junk".toList rfl (by decide)
    (by decide)

theorem firstAppearance_eq_nil_iff (l : List Str) :
    firstAppearance l = [] ↔ l = [] := by
  cases l with
  | nil => simp [firstAppearance]
  | cons p ps => rw [firstAppearance]; simp

theorem firstAppearance_length (l : List Str) :
    (firstAppearance l).length = l.toFinset.card := by
  have hset : (firstAppearance l).toFinset = l.toFinset := by
    ext a
    simp [List.mem_toFinset, mem_firstAppearance]
  rw [← hset]
  exact (List.toFinset_card_of_nodup (nodup_firstAppearance l)).symm

theorem lastOid_eq_empty_of_none (stage : Char) (p : Str)
    (es : List StageLine)
    (h : ∀ e ∈ es, ¬(e.path = p ∧ e.stage = stage)) :
    lastOid stage p es = EMPTY_OID := by
  unfold lastOid
  induction es with
  | nil => rfl
  | cons e rest ih =>
    rw [List.foldl_cons, if_neg (h e (by simp))]
    exact ih fun x hx => h x (by simp [hx])

def c1zeroInput : Str :=
  "T\n100644 ".toList ++ EMPTY_OID ++ " 1\tf.txt".toList

/-- C1 counterexample: the input contains a stage-1 stage-entry line
for `f.txt` (it matches the stage regex with stage `'1'`), yet the
resulting entry's `baseOid` equals the 40-zero sentinel, because the
stage-1 line itself carried the all-zero oid — refuting the claimed
"baseOid is the sentinel iff no stage-1 line existed". -/
theorem C1_counterexample :
    modernStageMatch ("100644 ".toList ++ EMPTY_OID ++ " 1\tf.txt".toList) =
      some ⟨"100644".toList, EMPTY_OID, '1', "f.txt".toList⟩ ∧
    (parseModernMergeTree c1zeroInput 1).conflictFiles =
      [⟨"f.txt".toList, EMPTY_OID, EMPTY_OID, EMPTY_OID⟩] := by decide

/-- C1 amended: for any modern-format input whose stage section is a
sequence of well-formed stage-entry lines (stages 1–3), parsed with
exit code 1: `conflictFiles` has one entry per distinct filepath in
first-appearance order, each entry's stage oids equal the oid of the
last stage line of that stage for that path — or the 40-zero sentinel
when no such line existed (in particular no stage-1 line leaves
`baseOid` at the sentinel; the converse fails only when a stage-1 line
itself carries the all-zero oid) — and `hasConflicts` iff there was at
least one stage line. -/
theorem C1_modern_grouping_amended (top : Str) (entries : List StageLine)
    (htop : '\n' ∉ top) (hwf : ∀ e ∈ entries, WFStageLine e) :
    (parseModernMergeTree
        (renderModernOutput top entries []) 1).conflictFiles =
      (firstAppearance (entries.map (·.path))).map
        (fun p => ⟨p, lastOid '1' p entries, lastOid '2' p entries,
          lastOid '3' p entries⟩) ∧
    (parseModernMergeTree
        (renderModernOutput top entries []) 1).conflictFiles.length =
      (entries.map (·.path)).toFinset.card ∧
    ((parseModernMergeTree
        (renderModernOutput top entries []) 1).hasConflicts = true ↔
      entries ≠ []) ∧
    (∀ p ∈ firstAppearance (entries.map (·.path)),
      (∀ e ∈ entries, ¬(e.path = p ∧ e.stage = '1')) →
        lastOid '1' p entries = EMPTY_OID) := by
  have hr := parseModern_render top entries [] htop hwf (by simp) 1
    (by norm_num)
  refine ⟨?_, ?_, ?_, ?_⟩
  · rw [hr]
  · rw [hr]
    show ((firstAppearance (entries.map (·.path))).map _).length = _
    rw [List.length_map, firstAppearance_length]
  · rw [hr]
    show decide
      (0 < (firstAppearance (entries.map (·.path))).length) = true ↔ _
    simp [List.length_pos, firstAppearance_eq_nil_iff]
  · intro p _ hnone
    exact lastOid_eq_empty_of_none '1' p entries hnone

def c1top : Str := "T".toList

def c1entries : List StageLine :=
  [⟨"100644".toList, List.replicate 40 'a', '1', "f.txt".toList⟩,
   ⟨"100644".toList, List.replicate 40 'b', '2', "f.txt".toList⟩,
   ⟨"100644".toList, List.replicate 40 'c', '3', "g.txt".toList⟩]

theorem C1_witness :
    (parseModernMergeTree
        (renderModernOutput c1top c1entries []) 1).conflictFiles.length =
      (c1entries.map (·.path)).toFinset.card :=
  (C1_modern_grouping_amended c1top c1entries (by decide) (by decide)).2.1

theorem legacyStep_skip (m : StageMap) (l : Str)
    (h : isLegacyBlockHeader l = false) :
    legacyStep ⟨m, false⟩ l = ⟨m, false⟩ := by
  simp [legacyStep, h]

theorem foldl_legacyStep_skip (pre : List Str)
    (h : ∀ l ∈ pre, isLegacyBlockHeader l = false) :
    pre.foldl legacyStep ⟨[], false⟩ = ⟨[], false⟩ := by
  induction pre with
  | nil => rfl
  | cons l rest ih =>
    rw [List.foldl_cons, legacyStep_skip _ _ (h l (by simp))]
    exact ih fun x hx => h x (by simp [hx])

theorem legacyStep_fileMap (st : LegacyLoopState) (l : Str)
    (h : legacyContentMatch l = none) :
    (legacyStep st l).fileMap = st.fileMap := by
  unfold legacyStep
  split
  · rfl
  · split
    · rfl
    · split
      · rfl
      · rw [h]

theorem foldl_legacyStep_fileMap (ls : List Str) (st : LegacyLoopState)
    (h : ∀ l ∈ ls, legacyContentMatch l = none) :
    (ls.foldl legacyStep st).fileMap = st.fileMap := by
  induction ls generalizing st with
  | nil => rfl
  | cons l rest ih =>
    rw [List.foldl_cons, ih _ (fun x hx => h x (by simp [hx]))]
    exact legacyStep_fileMap st l (h l (by simp))

/-- C8: the legacy parser always returns an empty `toplevelTreeOid` and
an empty `messages` list; every line list preceding the first block
header is ignored (it leaves the scan state untouched); an input none
of whose lines matches the content-line shape yields no conflicts; and
`hasConflicts` holds iff at least one file entry was assembled. -/
theorem C8_legacy_shape :
    (∀ s : Str, (parseLegacyMergeTree s).toplevelTreeOid = [] ∧
      (parseLegacyMergeTree s).messages = []) ∧
    (∀ pre ls : List Str, (∀ l ∈ pre, isLegacyBlockHeader l = false) →
      parseLegacyLines (pre ++ ls) = parseLegacyLines ls) ∧
    (∀ s : Str, (∀ l ∈ splitLines s, legacyContentMatch l = none) →
      (parseLegacyMergeTree s).hasConflicts = false) ∧
    (∀ s : Str, (parseLegacyMergeTree s).hasConflicts = true ↔
      (parseLegacyMergeTree s).conflictFiles ≠ []) := by
  refine ⟨fun s => ⟨rfl, rfl⟩, ?_, ?_, ?_⟩
  · intro pre ls h
    unfold parseLegacyLines
    rw [List.foldl_append, foldl_legacyStep_skip pre h]
  · intro s h
    show decide (0 < ((List.foldl legacyStep ⟨[], false⟩
      (splitLines s)).fileMap.map fun e =>
        ConflictFileEntry.mk e.1 e.2.baseOid e.2.oursOid
          e.2.theirsOid).length) = false
    rw [foldl_legacyStep_fileMap _ _ h]
    rfl
  · intro s
    unfold parseLegacyMergeTree parseLegacyLines
    simp [List.length_pos]

theorem C8_witness :
    parseLegacyLines (["junk line".toList] ++ ["changed in both".toList]) =
      parseLegacyLines ["changed in both".toList] :=
  C8_legacy_shape.2.1 ["junk line".toList] ["changed in both".toList]
    (by decide)

end Cassandra
